import Mathlib

/-!
Verification of the CRR binomial option pricer (YUSHANYAO.py).

The source builds a recombining binomial lattice and prices European and
American vanilla options by backward induction, then derives greeks from the
computed lattices by finite differences.

Embedding conventions:
* Machine floats are modelled as exact reals.
* A numpy `(M+1) x (M+1)` array is a `Lattice`: a size together with a total
  entry function; `Lattice.get` returns `none` out of bounds, modelling the
  `IndexError` numpy raises on out-of-bounds integer indexing.
* The pricers return `Option (Lattice x Lattice)`; `none` models the Python
  exceptions the source can raise before returning:
  - `dt = T / M` raises `ZeroDivisionError` when `M = 0`;
  - `math.sqrt dt` raises `ValueError` when `dt < 0`;
  - `q = (exp(r*dt - Q*dt) - d) / (u - d)` raises `ZeroDivisionError`
    when `u - d = 0` (these are Python floats, not numpy scalars).
  Division between numpy scalars (in the greeks) does not raise, so it is
  modelled by Lean's total division.
* The in-place column updates of the backward induction are modelled by
  explicit state passing: `inductStep`/`amerStep` rewrite one column of the
  value matrix, and `euroRun`/`amerRun` iterate them over columns
  `M-1, M-2, ..., 0`, exactly as the loop `for z in range(0, M)` does with
  the column index `j = M - z - 1`.
-/

namespace CRR

/-- Option type: the source dispatches on the string `'call'` (anything
else is treated as a put). -/
inductive Otype where
  | call : Otype
  | put : Otype

/-- A square numeric grid of a given size, as produced by the numpy code:
`entry i j` is the cell in row `i` (number of down moves) and column `j`
(time step). -/
structure Lattice where
  size : ℕ
  entry : ℕ → ℕ → ℝ

/-- Bounds-checked indexing `L[i, j]`: numpy raises `IndexError` when an
index is out of range, modelled by `none`. -/
def Lattice.get (L : Lattice) (i j : ℕ) : Option ℝ :=
  if i < L.size ∧ j < L.size then some (L.entry i j) else none

/-- Time step `dt = T / M`, the length of one time interval (line 29 / 68). -/
noncomputable def crr_dt (T : ℝ) (M : ℕ) : ℝ := T / M

/-- Up factor `u = exp(sigma * sqrt(dt))`, the up movement (line 33 / 73). -/
noncomputable def crr_u (sigma dt : ℝ) : ℝ := Real.exp (sigma * Real.sqrt dt)

/-- Down factor `d = 1 / u`, the down movement (line 34 / 74). -/
noncomputable def crr_d (sigma dt : ℝ) : ℝ := 1 / crr_u sigma dt

/-- Discount factor `df = exp(-r * dt)`, the one-period discount factor (line 30 / 69). -/
noncomputable def crr_df (r dt : ℝ) : ℝ := Real.exp (-r * dt)

/-- Branch probability `q = (exp(r*dt - Q*dt) - d) / (u - d)`, the martingale branch
probability (line 35 / 75). -/
noncomputable def crr_q (r Q sigma dt : ℝ) : ℝ :=
  (Real.exp (r * dt - Q * dt) - crr_d sigma dt) /
    (crr_u sigma dt - crr_d sigma dt)

/-- The stock-price grid `S = S0 * u ** (mu - md) * d ** md` built by the
broadcasted power trick (lines 38-50): cell `(i, j)` holds
`S0 * u^(j - i) * d^i`, with an integer (possibly negative) exponent on `u`
in the unused lower triangle. -/
noncomputable def crr_S (S0 sigma dt : ℝ) : ℕ → ℕ → ℝ := fun i j =>
  S0 * crr_u sigma dt ^ ((j : ℤ) - (i : ℤ)) * crr_d sigma dt ^ i

/-- Intrinsic values `np.maximum(S - K, 0)` resp. `np.maximum(K - S, 0)`,
applied to the whole square grid (lines 53-56 / 92-97). -/
noncomputable def payoff (otype : Otype) (K : ℝ) (S : ℕ → ℕ → ℝ) :
    ℕ → ℕ → ℝ := fun i j =>
  match otype with
  | Otype.call => max (S i j - K) 0
  | Otype.put => max (K - S i j) 0

/-- One European backward-induction column update (lines 61-62): rows
`0 .. j` of column `j` are overwritten with
`(q * V[i, j+1] + (1 - q) * V[i+1, j+1]) * df`; every other cell is left
unchanged. -/
noncomputable def inductStep (q df : ℝ) (j : ℕ) (V : ℕ → ℕ → ℝ) :
    ℕ → ℕ → ℝ := fun i j' =>
  if j' = j ∧ i ≤ j then
    (q * V i (j + 1) + (1 - q) * V (i + 1) (j + 1)) * df
  else V i j'

/-- The European loop `for z in range(0, M)` (lines 59-62): with `k`
columns left to process it updates column `k - 1, k - 2, ..., 0` in that
order, so `euroRun q df M` processes columns `M-1` down to `0`. -/
noncomputable def euroRun (q df : ℝ) : ℕ → (ℕ → ℕ → ℝ) → ℕ → ℕ → ℝ
  | 0, V => V
  | k + 1, V => euroRun q df k (inductStep q df k V)

/-- Expectation grid `mes = S0 * inf ** mu` with `inf = exp(r * dt)` (lines 70, 89): the
node-independent expected stock price used for the early-exercise payoff;
cell `(i, j)` holds `S0 * exp(r*dt)^j`, with no dependence on `i`. -/
noncomputable def crr_mes (S0 r dt : ℝ) : ℕ → ℕ → ℝ := fun _ j =>
  S0 * Real.exp (r * dt) ^ j

/-- Exercise grid `oreturn = mes - K` for a call, `K - mes` for a put (lines 95, 99):
the advance-exercise earnings grid. -/
noncomputable def crr_oreturn (otype : Otype) (S0 K r dt : ℝ) :
    ℕ → ℕ → ℝ := fun i j =>
  match otype with
  | Otype.call => crr_mes S0 r dt i j - K
  | Otype.put => K - crr_mes S0 r dt i j

/-- One American backward-induction column update (lines 104-108): like
`inductStep` but each overwritten cell takes the maximum of the discounted
continuation value and `oreturn[i, j]` at the target column `j`. -/
noncomputable def amerStep (q df : ℝ) (oreturn : ℕ → ℕ → ℝ) (j : ℕ)
    (V : ℕ → ℕ → ℝ) : ℕ → ℕ → ℝ := fun i j' =>
  if j' = j ∧ i ≤ j then
    max ((q * V i (j + 1) + (1 - q) * V (i + 1) (j + 1)) * df) (oreturn i j)
  else V i j'

/-- The American loop `for z in range(0, M)` (lines 102-108). -/
noncomputable def amerRun (q df : ℝ) (oreturn : ℕ → ℕ → ℝ) :
    ℕ → (ℕ → ℕ → ℝ) → ℕ → ℕ → ℝ
  | 0, V => V
  | k + 1, V => amerRun q df oreturn k (amerStep q df oreturn k V)

/-- Function `CRR_european_option_value` (lines 7-63): returns the pair `(V, S)` of
option-value and stock-price lattices, or `none` when the Python code
raises (see the module comment for the three raise sites, checked in
source order). -/
noncomputable def CRR_european_option_value (S0 K T r sigma : ℝ)
    (otype : Otype) (Q : ℝ) (M : ℕ) : Option (Lattice × Lattice) :=
  if M = 0 then none else
  if crr_dt T M < 0 then none else
  if crr_u sigma (crr_dt T M) - crr_d sigma (crr_dt T M) = 0 then none else
  some (⟨M + 1, euroRun (crr_q r Q sigma (crr_dt T M))
          (crr_df r (crr_dt T M)) M
          (payoff otype K (crr_S S0 sigma (crr_dt T M)))⟩,
        ⟨M + 1, crr_S S0 sigma (crr_dt T M)⟩)

/-- Function `CRR_american_option_value` (lines 66-110): like the European pricer
but with the per-node maximization against `oreturn`. -/
noncomputable def CRR_american_option_value (S0 K T r sigma : ℝ)
    (otype : Otype) (Q : ℝ) (M : ℕ) : Option (Lattice × Lattice) :=
  if M = 0 then none else
  if crr_dt T M < 0 then none else
  if crr_u sigma (crr_dt T M) - crr_d sigma (crr_dt T M) = 0 then none else
  some (⟨M + 1, amerRun (crr_q r Q sigma (crr_dt T M))
          (crr_df r (crr_dt T M))
          (crr_oreturn otype S0 K r (crr_dt T M)) M
          (payoff otype K (crr_S S0 sigma (crr_dt T M)))⟩,
        ⟨M + 1, crr_S S0 sigma (crr_dt T M)⟩)

/-- Function `calculate_delta` (lines 112-113): indexes `C[0,1]`, `C[1,1]`,
`S[0,1]`, `S[1,1]` (raising `IndexError` out of bounds) and divides. -/
noncomputable def calculate_delta (C S : Lattice) : Option ℝ :=
  match C.get 0 1, C.get 1 1, S.get 0 1, S.get 1 1 with
  | some c01, some c11, some s01, some s11 =>
      some ((c01 - c11) / (s01 - s11))
  | _, _, _, _ => none

/-- Function `calculate_gamma` (lines 115-118). -/
noncomputable def calculate_gamma (C S : Lattice) : Option ℝ :=
  match C.get 0 2, C.get 1 2, C.get 2 2, S.get 0 2, S.get 1 2, S.get 2 2 with
  | some c02, some c12, some c22, some s02, some s12, some s22 =>
      some (((c02 - c12) / (s02 - s12) - (c12 - c22) / (s12 - s22)) /
        (1 / 2 * (s02 - s22)))
  | _, _, _, _, _, _ => none

/-- Function `calculate_vega` (lines 120-121): pure scalar arithmetic. -/
noncomputable def calculate_vega (px_plu_sig px_min_sig diff_s : ℝ) : ℝ :=
  (px_plu_sig - px_min_sig) / (2 * diff_s)

/-- Function `calculate_theta` (lines 123-124): indexes `C[1,2]` and `C[0,0]`. -/
noncomputable def calculate_theta (C : Lattice) (dt : ℝ) : Option ℝ :=
  match C.get 1 2, C.get 0 0 with
  | some c12, some c00 => some ((c12 - c00) / (2 * dt))
  | _, _ => none

/-- Function `calculate_rho` (lines 126-127): pure scalar arithmetic. -/
noncomputable def calculate_rho (px_plu_r px_min_r diff_rr : ℝ) : ℝ :=
  (px_plu_r - px_min_r) / (2 * diff_rr)

/-! Core lemmas about the backward-induction loops. -/

/-- Columns at or beyond the number of still-unprocessed columns are never
written by the remaining European iterations. -/
theorem euroRun_high (q df : ℝ) (k : ℕ) (V : ℕ → ℕ → ℝ) (i j : ℕ)
    (hj : k ≤ j) : euroRun q df k V i j = V i j := by
  induction k generalizing V with
  | zero => rfl
  | succ k ih =>
      have h1 : euroRun q df (k + 1) V i j =
          euroRun q df k (inductStep q df k V) i j := rfl
      rw [h1, ih _ (le_of_lt (Nat.lt_of_lt_of_le (Nat.lt_succ_self k) hj))]
      have : ¬(j = k ∧ i ≤ k) := by
        rintro ⟨h, -⟩
        omega
      simp [inductStep, this]

/-- Cells below the diagonal (more down-moves than elapsed steps) are never
written by the European iterations. -/
theorem euroRun_lower (q df : ℝ) (k : ℕ) (V : ℕ → ℕ → ℝ) (i j : ℕ)
    (hij : j < i) : euroRun q df k V i j = V i j := by
  induction k generalizing V with
  | zero => rfl
  | succ k ih =>
      have h1 : euroRun q df (k + 1) V i j =
          euroRun q df k (inductStep q df k V) i j := rfl
      rw [h1, ih]
      have : ¬(j = k ∧ i ≤ k) := by
        rintro ⟨rfl, hik⟩
        exact absurd hij (Nat.not_lt.mpr hik)
      simp [inductStep, this]

/-- After the European loop has processed columns `k-1, ..., 0`, every cell
`(i, j)` with `i ≤ j < k` holds the discounted expectation of the final
cells `(i, j+1)` and `(i+1, j+1)`. -/
theorem euroRun_rec (q df : ℝ) (k : ℕ) (V : ℕ → ℕ → ℝ) (i j : ℕ)
    (hj : j < k) (hij : i ≤ j) :
    euroRun q df k V i j =
      (q * euroRun q df k V i (j + 1) +
        (1 - q) * euroRun q df k V (i + 1) (j + 1)) * df := by
  induction k generalizing V with
  | zero => exact absurd hj (Nat.not_lt_zero j)
  | succ k ih =>
      have h1 : ∀ i' j', euroRun q df (k + 1) V i' j' =
          euroRun q df k (inductStep q df k V) i' j' := fun _ _ => rfl
      rcases Nat.lt_or_ge j k with hjk | hjk
      · rw [h1, h1, h1]
        exact ih _ hjk
      · have hjk' : j = k := Nat.le_antisymm (Nat.lt_succ_iff.mp hj) hjk
        subst hjk'
        rw [h1, h1, h1, euroRun_high q df j _ i j le_rfl,
          euroRun_high q df j _ i (j + 1) (Nat.le_succ j),
          euroRun_high q df j _ (i + 1) (j + 1) (Nat.le_succ j)]
        have hc : (j = j ∧ i ≤ j) := ⟨rfl, hij⟩
        have hnc : ¬(j + 1 = j ∧ i ≤ j) := by
          rintro ⟨h, -⟩; exact absurd h (Nat.succ_ne_self j)
        have hnc' : ¬(j + 1 = j ∧ i + 1 ≤ j) := by
          rintro ⟨h, -⟩; exact absurd h (Nat.succ_ne_self j)
        simp [inductStep, hc, hnc, hnc']

/-- American analogue of `euroRun_high`. -/
theorem amerRun_high (q df : ℝ) (oreturn : ℕ → ℕ → ℝ) (k : ℕ)
    (V : ℕ → ℕ → ℝ) (i j : ℕ) (hj : k ≤ j) :
    amerRun q df oreturn k V i j = V i j := by
  induction k generalizing V with
  | zero => rfl
  | succ k ih =>
      have h1 : amerRun q df oreturn (k + 1) V i j =
          amerRun q df oreturn k (amerStep q df oreturn k V) i j := rfl
      rw [h1, ih _ (le_of_lt (Nat.lt_of_lt_of_le (Nat.lt_succ_self k) hj))]
      have : ¬(j = k ∧ i ≤ k) := by
        rintro ⟨h, -⟩
        omega
      simp [amerStep, this]

/-- American analogue of `euroRun_lower`. -/
theorem amerRun_lower (q df : ℝ) (oreturn : ℕ → ℕ → ℝ) (k : ℕ)
    (V : ℕ → ℕ → ℝ) (i j : ℕ) (hij : j < i) :
    amerRun q df oreturn k V i j = V i j := by
  induction k generalizing V with
  | zero => rfl
  | succ k ih =>
      have h1 : amerRun q df oreturn (k + 1) V i j =
          amerRun q df oreturn k (amerStep q df oreturn k V) i j := rfl
      rw [h1, ih]
      have : ¬(j = k ∧ i ≤ k) := by
        rintro ⟨rfl, hik⟩
        exact absurd hij (Nat.not_lt.mpr hik)
      simp [amerStep, this]

/-- American analogue of `euroRun_rec`: processed cells hold the maximum of
the discounted continuation value and the advance-exercise earnings at the
target column. -/
theorem amerRun_rec (q df : ℝ) (oreturn : ℕ → ℕ → ℝ) (k : ℕ)
    (V : ℕ → ℕ → ℝ) (i j : ℕ) (hj : j < k) (hij : i ≤ j) :
    amerRun q df oreturn k V i j =
      max ((q * amerRun q df oreturn k V i (j + 1) +
        (1 - q) * amerRun q df oreturn k V (i + 1) (j + 1)) * df)
        (oreturn i j) := by
  induction k generalizing V with
  | zero => exact absurd hj (Nat.not_lt_zero j)
  | succ k ih =>
      have h1 : ∀ i' j', amerRun q df oreturn (k + 1) V i' j' =
          amerRun q df oreturn k (amerStep q df oreturn k V) i' j' :=
        fun _ _ => rfl
      rcases Nat.lt_or_ge j k with hjk | hjk
      · rw [h1, h1, h1]
        exact ih _ hjk
      · have hjk' : j = k := Nat.le_antisymm (Nat.lt_succ_iff.mp hj) hjk
        subst hjk'
        rw [h1, h1, h1, amerRun_high q df oreturn j _ i j le_rfl,
          amerRun_high q df oreturn j _ i (j + 1) (Nat.le_succ j),
          amerRun_high q df oreturn j _ (i + 1) (j + 1) (Nat.le_succ j)]
        have hc : (j = j ∧ i ≤ j) := ⟨rfl, hij⟩
        have hnc : ¬(j + 1 = j ∧ i ≤ j) := by
          rintro ⟨h, -⟩; exact absurd h (Nat.succ_ne_self j)
        have hnc' : ¬(j + 1 = j ∧ i + 1 ≤ j) := by
          rintro ⟨h, -⟩; exact absurd h (Nat.succ_ne_self j)
        simp [amerStep, hc, hnc, hnc']

/-- Monotone comparison of the two loops: when `0 ≤ q ≤ 1` and `0 ≤ df`,
running the American loop on a pointwise-larger matrix keeps every cell at
least as large as the European loop's. -/
theorem euroRun_le_amerRun (q df : ℝ) (oreturn : ℕ → ℕ → ℝ)
    (hq0 : 0 ≤ q) (hq1 : q ≤ 1) (hdf : 0 ≤ df) (k : ℕ)
    (V W : ℕ → ℕ → ℝ) (h : ∀ i j, V i j ≤ W i j) :
    ∀ i j, euroRun q df k V i j ≤ amerRun q df oreturn k W i j := by
  induction k generalizing V W with
  | zero => exact h
  | succ k ih =>
      intro i j
      have h1 : euroRun q df (k + 1) V i j =
          euroRun q df k (inductStep q df k V) i j := rfl
      have h2 : amerRun q df oreturn (k + 1) W i j =
          amerRun q df oreturn k (amerStep q df oreturn k W) i j := rfl
      rw [h1, h2]
      refine ih _ _ (fun i' j' => ?_) i j
      by_cases hc : j' = k ∧ i' ≤ k
      · have hv : inductStep q df k V i' j' =
            (q * V i' (k + 1) + (1 - q) * V (i' + 1) (k + 1)) * df := by
          simp [inductStep, hc]
        have hw : amerStep q df oreturn k W i' j' =
            max ((q * W i' (k + 1) + (1 - q) * W (i' + 1) (k + 1)) * df)
              (oreturn i' k) := by
          simp [amerStep, hc]
        rw [hv, hw]
        refine le_trans ?_ (le_max_left _ _)
        have hcont : q * V i' (k + 1) + (1 - q) * V (i' + 1) (k + 1) ≤
            q * W i' (k + 1) + (1 - q) * W (i' + 1) (k + 1) := by
          have t1 : q * V i' (k + 1) ≤ q * W i' (k + 1) :=
            mul_le_mul_of_nonneg_left (h _ _) hq0
          have t2 : (1 - q) * V (i' + 1) (k + 1) ≤
              (1 - q) * W (i' + 1) (k + 1) :=
            mul_le_mul_of_nonneg_left (h _ _) (by linarith)
          linarith
        exact mul_le_mul_of_nonneg_right hcont hdf
      · have hv : inductStep q df k V i' j' = V i' j' := by
          simp [inductStep, hc]
        have hw : amerStep q df oreturn k W i' j' = W i' j' := by
          simp [amerStep, hc]
        rw [hv, hw]; exact h i' j'

/-! Guard and inversion lemmas for the two pricers. -/

/-- The up factor is a positive real. -/
theorem crr_u_pos (sigma dt : ℝ) : 0 < crr_u sigma dt := Real.exp_pos _

/-- When the exponent `sigma * sqrt dt` is nonzero, `u ≠ d`, so computing
`q` does not divide by zero. -/
theorem crr_ud_ne (sigma dt : ℝ) (h : sigma * Real.sqrt dt ≠ 0) :
    crr_u sigma dt - crr_d sigma dt ≠ 0 := by
  intro h0
  have hu : 0 < crr_u sigma dt := crr_u_pos sigma dt
  have hsq : crr_u sigma dt * crr_u sigma dt = 1 := by
    have : crr_u sigma dt = crr_d sigma dt := by linarith
    rw [crr_d] at this
    field_simp at this
    linarith [this]
  have h1 : crr_u sigma dt = 1 := by nlinarith
  rw [crr_u, Real.exp_eq_one_iff] at h1
  exact h h1

/-- With nonzero step count and nonnegative maturity the time step is
nonnegative, so `math.sqrt` does not raise. -/
theorem crr_dt_nonneg (T : ℝ) (M : ℕ) (hT : 0 ≤ T) : ¬ crr_dt T M < 0 := by
  rw [crr_dt]
  push_neg
  positivity

/-- Positive maturity and nonzero step count give a positive time step. -/
theorem crr_dt_pos (T : ℝ) (M : ℕ) (hM : M ≠ 0) (hT : 0 < T) :
    0 < crr_dt T M := by
  rw [crr_dt]
  have : (0:ℝ) < (M:ℝ) := by
    exact_mod_cast Nat.pos_of_ne_zero hM
  positivity

/-- With `M ≠ 0`, `T > 0` and `sigma ≠ 0` none of the three raise sites of
the European pricer fires, and the returned lattices are exactly the built
ones. -/
theorem euro_eq_some (S0 K T r sigma Q : ℝ) (otype : Otype) (M : ℕ)
    (hM : M ≠ 0) (hT : 0 < T) (hs : sigma ≠ 0) :
    CRR_european_option_value S0 K T r sigma otype Q M =
      some (⟨M + 1, euroRun (crr_q r Q sigma (crr_dt T M))
              (crr_df r (crr_dt T M)) M
              (payoff otype K (crr_S S0 sigma (crr_dt T M)))⟩,
            ⟨M + 1, crr_S S0 sigma (crr_dt T M)⟩) := by
  have hdt := crr_dt_nonneg T M (le_of_lt hT)
  have hdtp := crr_dt_pos T M hM hT
  have hud : crr_u sigma (crr_dt T M) - crr_d sigma (crr_dt T M) ≠ 0 :=
    crr_ud_ne sigma (crr_dt T M)
      (mul_ne_zero hs (ne_of_gt (Real.sqrt_pos.mpr hdtp)))
  rw [CRR_european_option_value, if_neg hM, if_neg hdt, if_neg hud]

/-- American analogue of `euro_eq_some`. -/
theorem amer_eq_some (S0 K T r sigma Q : ℝ) (otype : Otype) (M : ℕ)
    (hM : M ≠ 0) (hT : 0 < T) (hs : sigma ≠ 0) :
    CRR_american_option_value S0 K T r sigma otype Q M =
      some (⟨M + 1, amerRun (crr_q r Q sigma (crr_dt T M))
              (crr_df r (crr_dt T M))
              (crr_oreturn otype S0 K r (crr_dt T M)) M
              (payoff otype K (crr_S S0 sigma (crr_dt T M)))⟩,
            ⟨M + 1, crr_S S0 sigma (crr_dt T M)⟩) := by
  have hdt := crr_dt_nonneg T M (le_of_lt hT)
  have hdtp := crr_dt_pos T M hM hT
  have hud : crr_u sigma (crr_dt T M) - crr_d sigma (crr_dt T M) ≠ 0 :=
    crr_ud_ne sigma (crr_dt T M)
      (mul_ne_zero hs (ne_of_gt (Real.sqrt_pos.mpr hdtp)))
  rw [CRR_american_option_value, if_neg hM, if_neg hdt, if_neg hud]

/-- Whenever the European pricer returns at all, what it returns are the
built lattices (inversion of the definition, no side conditions). -/
theorem euro_inv (S0 K T r sigma Q : ℝ) (otype : Otype) (M : ℕ)
    (V S : Lattice)
    (h : CRR_european_option_value S0 K T r sigma otype Q M = some (V, S)) :
    V = ⟨M + 1, euroRun (crr_q r Q sigma (crr_dt T M))
          (crr_df r (crr_dt T M)) M
          (payoff otype K (crr_S S0 sigma (crr_dt T M)))⟩ ∧
    S = ⟨M + 1, crr_S S0 sigma (crr_dt T M)⟩ := by
  rw [CRR_european_option_value] at h
  split_ifs at h
  rw [Option.some_inj, Prod.ext_iff] at h
  exact ⟨h.1.symm, h.2.symm⟩

/-- American analogue of `euro_inv`. -/
theorem amer_inv (S0 K T r sigma Q : ℝ) (otype : Otype) (M : ℕ)
    (V S : Lattice)
    (h : CRR_american_option_value S0 K T r sigma otype Q M = some (V, S)) :
    V = ⟨M + 1, amerRun (crr_q r Q sigma (crr_dt T M))
          (crr_df r (crr_dt T M))
          (crr_oreturn otype S0 K r (crr_dt T M)) M
          (payoff otype K (crr_S S0 sigma (crr_dt T M)))⟩ ∧
    S = ⟨M + 1, crr_S S0 sigma (crr_dt T M)⟩ := by
  rw [CRR_american_option_value] at h
  split_ifs at h
  rw [Option.some_inj, Prod.ext_iff] at h
  exact ⟨h.1.symm, h.2.symm⟩

/-- A successful European run forces `M ≠ 0` (otherwise `T / M` raises). -/
theorem euro_M_ne_zero (S0 K T r sigma Q : ℝ) (otype : Otype) (M : ℕ)
    (V S : Lattice)
    (h : CRR_european_option_value S0 K T r sigma otype Q M = some (V, S)) :
    M ≠ 0 := by
  intro hM
  rw [CRR_european_option_value, if_pos hM] at h
  exact Option.noConfusion h

/-! Claims. -/

/-- C5: the claim says inputs with `M < 1`, `T ≤ 0` or `sigma < 0` are
rejected with an `InvalidParameter`-class error.  The code has no parameter
validation at all: with `sigma = -0.2` (demo values otherwise) every raise
site is passed — `u - d = exp(-0.1) - exp(0.1) ≠ 0` — and both pricers
silently return a full (degenerate, inverted) lattice pair. -/
theorem claim5_negative_sigma_not_rejected :
    (CRR_european_option_value 100 100 1 (5/100) (-(2/10)) Otype.call
      (2/100) 4).isSome = true ∧
    (CRR_american_option_value 100 100 1 (5/100) (-(2/10)) Otype.call
      (2/100) 4).isSome = true := by
  constructor
  · rw [euro_eq_some 100 100 1 (5/100) (-(2/10)) (2/100) Otype.call 4
      (by norm_num) (by norm_num) (by norm_num)]
    rfl
  · rw [amer_eq_some 100 100 1 (5/100) (-(2/10)) (2/100) Otype.call 4
      (by norm_num) (by norm_num) (by norm_num)]
    rfl

/-- C6: a sensitivity formula whose lattice is too shallow fails with an
`IndexOutOfRange`-class error (`none`, modelling numpy's `IndexError`)
instead of returning a value: gamma and theta need `M ≥ 2` (they read
column 2), delta needs `M ≥ 1` (it reads column 1). -/
theorem claim6_greek_depth_errors :
    (∀ (C S : Lattice) (M : ℕ) (dt : ℝ), M < 2 → C.size = M + 1 →
      S.size = M + 1 →
      calculate_gamma C S = none ∧ calculate_theta C dt = none) ∧
    (∀ (C S : Lattice) (M : ℕ), M < 1 → C.size = M + 1 → S.size = M + 1 →
      calculate_delta C S = none) := by
  constructor
  · intro C S M dt hM hC hS
    have hg : C.get 0 2 = none := by
      rw [Lattice.get, if_neg]
      rintro ⟨-, h2⟩
      omega
    have hg' : C.get 1 2 = none := by
      rw [Lattice.get, if_neg]
      rintro ⟨-, h2⟩
      omega
    exact ⟨by rw [calculate_gamma, hg], by rw [calculate_theta, hg']⟩
  · intro C S M hM hC hS
    have hg : C.get 0 1 = none := by
      rw [Lattice.get, if_neg]
      rintro ⟨-, h2⟩
      omega
    rw [calculate_delta, hg]

/-- Witness for C6 at concrete shallow lattices (`M = 1` for gamma/theta,
`M = 0` for delta). -/
theorem claim6_witness :
    calculate_gamma ⟨2, fun _ _ => 0⟩ ⟨2, fun _ _ => 0⟩ = none ∧
    calculate_theta ⟨2, fun _ _ => 0⟩ 1 = none ∧
    calculate_delta ⟨1, fun _ _ => 0⟩ ⟨1, fun _ _ => 0⟩ = none :=
  ⟨(claim6_greek_depth_errors.1 ⟨2, fun _ _ => 0⟩ ⟨2, fun _ _ => 0⟩ 1 1
      (by norm_num) rfl rfl).1,
   (claim6_greek_depth_errors.1 ⟨2, fun _ _ => 0⟩ ⟨2, fun _ _ => 0⟩ 1 1
      (by norm_num) rfl rfl).2,
   claim6_greek_depth_errors.2 ⟨1, fun _ _ => 0⟩ ⟨1, fun _ _ => 0⟩ 0
      (by norm_num) rfl rfl⟩

/-- C7 counterexample: the claim says `M = 0` raises no error and yields
the single-node tree, but the very first line `dt = T / M` raises
`ZeroDivisionError`, so the European pricer returns nothing at the demo
input with `M = 0`. -/
theorem claim7_counterexample :
    CRR_european_option_value 100 100 1 (5/100) (2/10) Otype.call
      (2/100) 0 = none := by
  rw [CRR_european_option_value, if_pos rfl]

/-- C7 amended: calling either pricer with `M = 0` raises a
division-by-zero error in `dt = T / M` and produces no lattice at all,
for every choice of the remaining parameters. -/
theorem claim7_M0_raises (S0 K T r sigma Q : ℝ) (otype : Otype) :
    CRR_european_option_value S0 K T r sigma otype Q 0 = none ∧
    CRR_american_option_value S0 K T r sigma otype Q 0 = none :=
  ⟨by rw [CRR_european_option_value, if_pos rfl],
   by rw [CRR_american_option_value, if_pos rfl]⟩

/-- C8: whenever either pricer returns, cell `(0, 0)` of its stock-price
lattice is exactly `S0` (the build formula gives `S0 * u^0 * d^0`, exact
also in floating point since both factors are exactly `1.0`). -/
theorem claim8_S00_exact (S0 K T r sigma Q : ℝ) (otype : Otype) (M : ℕ)
    (Ve Se Va Sa : Lattice) (hM : 1 ≤ M)
    (he : CRR_european_option_value S0 K T r sigma otype Q M =
      some (Ve, Se))
    (ha : CRR_american_option_value S0 K T r sigma otype Q M =
      some (Va, Sa)) :
    Se.get 0 0 = some S0 ∧ Sa.get 0 0 = some S0 := by
  obtain ⟨-, hSe⟩ := euro_inv S0 K T r sigma Q otype M Ve Se he
  obtain ⟨-, hSa⟩ := amer_inv S0 K T r sigma Q otype M Va Sa ha
  subst hSe
  subst hSa
  constructor <;>
    simp [Lattice.get, crr_S]

/-- Witness for C8 at the demo-like input
`S0 = 100, K = 100, T = 1, r = 0.05, sigma = 0.2, Q = 0.02, M = 4`. -/
theorem claim8_witness :
    ∃ Ve Se Va Sa : Lattice,
      CRR_european_option_value 100 100 1 (5/100) (2/10) Otype.call
        (2/100) 4 = some (Ve, Se) ∧
      CRR_american_option_value 100 100 1 (5/100) (2/10) Otype.call
        (2/100) 4 = some (Va, Sa) ∧
      Se.get 0 0 = some 100 ∧ Sa.get 0 0 = some 100 := by
  have he := euro_eq_some 100 100 1 (5/100) (2/10) (2/100) Otype.call 4
    (by norm_num) (by norm_num) (by norm_num)
  have ha := amer_eq_some 100 100 1 (5/100) (2/10) (2/100) Otype.call 4
    (by norm_num) (by norm_num) (by norm_num)
  have hc := claim8_S00_exact 100 100 1 (5/100) (2/10) (2/100) Otype.call 4
    _ _ _ _ (by norm_num) he ha
  exact ⟨_, _, _, _, he, ha, hc.1, hc.2⟩

/-- C10: in the European value lattice every padding cell below the
diagonal (`i > j`, any column) still holds the intrinsic payoff of that
cell's stock price: the terminal-payoff step fills the whole square with
`np.maximum(S - K, 0)` (resp. `K - S`) and the backward induction only
writes rows `0..j` of each column `j < M`. -/
theorem claim10_padding_intrinsic (S0 K T r sigma Q : ℝ) (otype : Otype)
    (M : ℕ) (V S : Lattice) (hM : 1 ≤ M)
    (h : CRR_european_option_value S0 K T r sigma otype Q M = some (V, S)) :
    ∀ i j : ℕ, j < i → i ≤ M →
      V.get i j = some (match otype with
        | Otype.call => max (S.entry i j - K) 0
        | Otype.put => max (K - S.entry i j) 0) := by
  obtain ⟨hV, hS⟩ := euro_inv S0 K T r sigma Q otype M V S h
  subst hV
  subst hS
  intro i j hji hiM
  rw [Lattice.get,
    if_pos (show i < M + 1 ∧ j < M + 1 from ⟨by omega, by omega⟩)]
  have hlow := euroRun_lower (crr_q r Q sigma (crr_dt T M))
    (crr_df r (crr_dt T M)) M
    (payoff otype K (crr_S S0 sigma (crr_dt T M))) i j hji
  cases otype
  · exact congrArg some hlow
  · exact congrArg some hlow

/-- C1 counterexample: the claim quantifies over `sigma ≥ 0`, but at
`sigma = 0` (demo values otherwise) `u = d = 1`, so the branch-probability
division `(exp(r*dt - Q*dt) - d) / (u - d)` raises `ZeroDivisionError` and
the European pricer returns no lattice at all. -/
theorem claim1_counterexample :
    CRR_european_option_value 100 100 1 (5/100) 0 Otype.call (2/100) 4 =
      none := by
  rw [CRR_european_option_value, if_neg (by norm_num : ¬(4 = 0)),
    if_neg (crr_dt_nonneg 1 4 (by norm_num)), if_pos]
  norm_num [crr_u, crr_d, Real.exp_zero]

/-- C1 amended (`sigma ≥ 0` strengthened to `sigma > 0`): for `M ≥ 1`,
`T > 0`, `sigma > 0` the European pricer builds the lattice from
`dt = T/M`, `u = exp(sigma*sqrt dt)`, `d = 1/u`,
`q = (exp((r-Q)*dt) - d)/(u - d)` (the returned value lattice is the
backward induction run with exactly that `q` and `df = exp(-r*dt)`), and
every upper-triangle cell of the returned stock-price lattice is
`S0 * u^(j-i) * d^i`. -/
theorem claim1_lattice_build (S0 K T r sigma Q : ℝ) (otype : Otype)
    (M : ℕ) (hM : 1 ≤ M) (hT : 0 < T) (hs : 0 < sigma) :
    ∃ V S : Lattice,
      CRR_european_option_value S0 K T r sigma otype Q M = some (V, S) ∧
      V = ⟨M + 1,
        euroRun
          ((Real.exp (r * (T / (M:ℝ)) - Q * (T / (M:ℝ))) -
              1 / Real.exp (sigma * Real.sqrt (T / (M:ℝ)))) /
            (Real.exp (sigma * Real.sqrt (T / (M:ℝ))) -
              1 / Real.exp (sigma * Real.sqrt (T / (M:ℝ)))))
          (Real.exp (-r * (T / (M:ℝ)))) M
          (payoff otype K (crr_S S0 sigma (T / (M:ℝ))))⟩ ∧
      S.size = M + 1 ∧
      (∀ i j : ℕ, i ≤ j → j ≤ M →
        S.get i j = some
          (S0 * Real.exp (sigma * Real.sqrt (T / (M:ℝ))) ^ (j - i) *
            (1 / Real.exp (sigma * Real.sqrt (T / (M:ℝ)))) ^ i)) := by
  have he := euro_eq_some S0 K T r sigma Q otype M
    (by omega) hT (ne_of_gt hs)
  refine ⟨_, _, he, rfl, rfl, ?_⟩
  intro i j hij hjM
  rw [Lattice.get,
    if_pos (show i < M + 1 ∧ j < M + 1 from ⟨by omega, by omega⟩)]
  have hcast : (j : ℤ) - (i : ℤ) = ((j - i : ℕ) : ℤ) := by omega
  rw [show (⟨M + 1, crr_S S0 sigma (crr_dt T M)⟩ : Lattice).entry i j =
      crr_S S0 sigma (crr_dt T M) i j from rfl,
    crr_S, hcast, zpow_natCast]
  rfl

/-- Witness for C1 at `S0 = K = 1, T = 1, r = 0, sigma = 1, Q = 0,
M = 1`. -/
theorem claim1_witness :
    (1:ℕ) ≤ 1 ∧ (0:ℝ) < 1 ∧ (0:ℝ) < 1 ∧
    (∃ V S : Lattice,
      CRR_european_option_value 1 1 1 0 1 Otype.call 0 1 = some (V, S) ∧
      V = ⟨1 + 1,
        euroRun
          ((Real.exp (0 * (1 / ((1:ℕ):ℝ)) - 0 * (1 / ((1:ℕ):ℝ))) -
              1 / Real.exp (1 * Real.sqrt (1 / ((1:ℕ):ℝ)))) /
            (Real.exp (1 * Real.sqrt (1 / ((1:ℕ):ℝ))) -
              1 / Real.exp (1 * Real.sqrt (1 / ((1:ℕ):ℝ)))))
          (Real.exp (-0 * (1 / ((1:ℕ):ℝ)))) 1
          (payoff Otype.call 1 (crr_S 1 1 (1 / ((1:ℕ):ℝ))))⟩ ∧
      S.size = 1 + 1 ∧
      (∀ i j : ℕ, i ≤ j → j ≤ 1 →
        S.get i j = some
          (1 * Real.exp (1 * Real.sqrt (1 / ((1:ℕ):ℝ))) ^ (j - i) *
            (1 / Real.exp (1 * Real.sqrt (1 / ((1:ℕ):ℝ)))) ^ i))) :=
  ⟨le_refl 1, by norm_num, by norm_num,
    claim1_lattice_build 1 1 1 0 1 0 Otype.call 1 (le_refl 1)
      (by norm_num) (by norm_num)⟩

/-- C2: whatever lattices the European pricer returns satisfy the claimed
contract: terminal column `M` holds `max(S-K, 0)` (call) resp.
`max(K-S, 0)` (put), each processed cell `i ≤ j < M` is the discounted
expectation `(q*V[i,j+1] + (1-q)*V[i+1,j+1])*df` with no intrinsic-value
comparison, and cell `(0,0)` of the returned value lattice is the present
value. -/
theorem claim2_euro_backward (S0 K T r sigma Q : ℝ) (otype : Otype)
    (M : ℕ) (V S : Lattice) (hM : 1 ≤ M)
    (h : CRR_european_option_value S0 K T r sigma otype Q M =
      some (V, S)) :
    (∀ i : ℕ, i ≤ M → V.entry i M =
      (match otype with
       | Otype.call => max (S.entry i M - K) 0
       | Otype.put => max (K - S.entry i M) 0)) ∧
    (∀ j : ℕ, j < M → ∀ i : ℕ, i ≤ j →
      V.entry i j =
        (crr_q r Q sigma (crr_dt T M) * V.entry i (j + 1) +
          (1 - crr_q r Q sigma (crr_dt T M)) * V.entry (i + 1) (j + 1)) *
          crr_df r (crr_dt T M)) := by
  obtain ⟨hV, hS⟩ := euro_inv S0 K T r sigma Q otype M V S h
  subst hV
  subst hS
  constructor
  · intro i hi
    have hterm := euroRun_high (crr_q r Q sigma (crr_dt T M))
      (crr_df r (crr_dt T M)) M
      (payoff otype K (crr_S S0 sigma (crr_dt T M))) i M le_rfl
    cases otype
    · exact hterm
    · exact hterm
  · intro j hj i hi
    exact euroRun_rec (crr_q r Q sigma (crr_dt T M))
      (crr_df r (crr_dt T M)) M
      (payoff otype K (crr_S S0 sigma (crr_dt T M))) i j hj hi

/-- Witness for C2 at `S0 = K = 1, T = 1, r = 0, sigma = 1, Q = 0,
M = 1`. -/
theorem claim2_witness :
    ∃ V S : Lattice,
      CRR_european_option_value 1 1 1 0 1 Otype.call 0 1 = some (V, S) ∧
      ((∀ i : ℕ, i ≤ 1 → V.entry i 1 = max (S.entry i 1 - 1) 0) ∧
       (∀ j : ℕ, j < 1 → ∀ i : ℕ, i ≤ j →
         V.entry i j =
           (crr_q 0 0 1 (crr_dt 1 1) * V.entry i (j + 1) +
             (1 - crr_q 0 0 1 (crr_dt 1 1)) * V.entry (i + 1) (j + 1)) *
             crr_df 0 (crr_dt 1 1))) := by
  have he := euro_eq_some 1 1 1 0 1 0 Otype.call 1 (by norm_num)
    (by norm_num) (by norm_num)
  exact ⟨_, _, he,
    claim2_euro_backward 1 1 1 0 1 0 Otype.call 1 _ _ (le_refl 1) he⟩

/-- C3: whatever lattices the American pricer returns satisfy the claimed
contract: the terminal column is the same payoff step as the European one,
and each processed cell is the maximum of the discounted continuation
value and the advance-exercise value `S0*exp(r*dt)^j - K` (call) resp.
`K - S0*exp(r*dt)^j` (put), which depends on the target column `j` only,
not on the node row `i`. -/
theorem claim3_amer_backward (S0 K T r sigma Q : ℝ) (otype : Otype)
    (M : ℕ) (V S : Lattice) (hM : 1 ≤ M)
    (h : CRR_american_option_value S0 K T r sigma otype Q M =
      some (V, S)) :
    (∀ i : ℕ, i ≤ M → V.entry i M =
      (match otype with
       | Otype.call => max (S.entry i M - K) 0
       | Otype.put => max (K - S.entry i M) 0)) ∧
    (∀ j : ℕ, j < M → ∀ i : ℕ, i ≤ j →
      V.entry i j = max
        ((crr_q r Q sigma (crr_dt T M) * V.entry i (j + 1) +
          (1 - crr_q r Q sigma (crr_dt T M)) * V.entry (i + 1) (j + 1)) *
          crr_df r (crr_dt T M))
        (match otype with
         | Otype.call => S0 * Real.exp (r * crr_dt T M) ^ j - K
         | Otype.put => K - S0 * Real.exp (r * crr_dt T M) ^ j)) := by
  obtain ⟨hV, hS⟩ := amer_inv S0 K T r sigma Q otype M V S h
  subst hV
  subst hS
  constructor
  · intro i hi
    have hterm := amerRun_high (crr_q r Q sigma (crr_dt T M))
      (crr_df r (crr_dt T M)) (crr_oreturn otype S0 K r (crr_dt T M)) M
      (payoff otype K (crr_S S0 sigma (crr_dt T M))) i M le_rfl
    cases otype
    · exact hterm
    · exact hterm
  · intro j hj i hi
    have hrec := amerRun_rec (crr_q r Q sigma (crr_dt T M))
      (crr_df r (crr_dt T M)) (crr_oreturn otype S0 K r (crr_dt T M)) M
      (payoff otype K (crr_S S0 sigma (crr_dt T M))) i j hj hi
    cases otype
    · exact hrec
    · exact hrec

/-- Witness for C3 at `S0 = K = 1, T = 1, r = 0, sigma = 1, Q = 0,
M = 1`. -/
theorem claim3_witness :
    ∃ V S : Lattice,
      CRR_american_option_value 1 1 1 0 1 Otype.call 0 1 = some (V, S) ∧
      ((∀ i : ℕ, i ≤ 1 → V.entry i 1 = max (S.entry i 1 - 1) 0) ∧
       (∀ j : ℕ, j < 1 → ∀ i : ℕ, i ≤ j →
         V.entry i j = max
           ((crr_q 0 0 1 (crr_dt 1 1) * V.entry i (j + 1) +
             (1 - crr_q 0 0 1 (crr_dt 1 1)) * V.entry (i + 1) (j + 1)) *
             crr_df 0 (crr_dt 1 1))
           (1 * Real.exp (0 * crr_dt 1 1) ^ j - 1))) := by
  have ha := amer_eq_some 1 1 1 0 1 0 Otype.call 1 (by norm_num)
    (by norm_num) (by norm_num)
  exact ⟨_, _, ha,
    claim3_amer_backward 1 1 1 0 1 0 Otype.call 1 _ _ (le_refl 1) ha⟩

/-- C9: the backward induction of either pricer never writes the
stock-price lattice — every returned `S` cell (including padding) is still
the construction formula `S0 * u^(j-i) * d^i` — and every value-lattice
cell `i ≤ j < M` is overwritten with a value determined solely by the
final cells of column `j + 1` (strict right-to-left dependency). -/
theorem claim9_frame (S0 K T r sigma Q : ℝ) (otype : Otype) (M : ℕ)
    (Ve Se Va Sa : Lattice) (hM : 1 ≤ M)
    (he : CRR_european_option_value S0 K T r sigma otype Q M =
      some (Ve, Se))
    (ha : CRR_american_option_value S0 K T r sigma otype Q M =
      some (Va, Sa)) :
    (∀ i j : ℕ, Se.entry i j =
      S0 * crr_u sigma (crr_dt T M) ^ ((j:ℤ) - (i:ℤ)) *
        crr_d sigma (crr_dt T M) ^ i) ∧
    (∀ i j : ℕ, Sa.entry i j =
      S0 * crr_u sigma (crr_dt T M) ^ ((j:ℤ) - (i:ℤ)) *
        crr_d sigma (crr_dt T M) ^ i) ∧
    (∀ j : ℕ, j < M → ∀ i : ℕ, i ≤ j →
      Ve.entry i j =
        (crr_q r Q sigma (crr_dt T M) * Ve.entry i (j + 1) +
          (1 - crr_q r Q sigma (crr_dt T M)) * Ve.entry (i + 1) (j + 1)) *
          crr_df r (crr_dt T M)) ∧
    (∀ j : ℕ, j < M → ∀ i : ℕ, i ≤ j →
      Va.entry i j = max
        ((crr_q r Q sigma (crr_dt T M) * Va.entry i (j + 1) +
          (1 - crr_q r Q sigma (crr_dt T M)) * Va.entry (i + 1) (j + 1)) *
          crr_df r (crr_dt T M))
        (crr_oreturn otype S0 K r (crr_dt T M) i j)) := by
  obtain ⟨hVe, hSe⟩ := euro_inv S0 K T r sigma Q otype M Ve Se he
  obtain ⟨hVa, hSa⟩ := amer_inv S0 K T r sigma Q otype M Va Sa ha
  subst hVe
  subst hSe
  subst hVa
  subst hSa
  refine ⟨fun i j => rfl, fun i j => rfl, ?_, ?_⟩
  · intro j hj i hi
    exact euroRun_rec (crr_q r Q sigma (crr_dt T M))
      (crr_df r (crr_dt T M)) M
      (payoff otype K (crr_S S0 sigma (crr_dt T M))) i j hj hi
  · intro j hj i hi
    exact amerRun_rec (crr_q r Q sigma (crr_dt T M))
      (crr_df r (crr_dt T M)) (crr_oreturn otype S0 K r (crr_dt T M)) M
      (payoff otype K (crr_S S0 sigma (crr_dt T M))) i j hj hi

/-- Witness for C9 at `S0 = K = 1, T = 1, r = 0, sigma = 1, Q = 0,
M = 1`. -/
theorem claim9_witness :
    ∃ Ve Se Va Sa : Lattice,
      CRR_european_option_value 1 1 1 0 1 Otype.put 0 1 = some (Ve, Se) ∧
      CRR_american_option_value 1 1 1 0 1 Otype.put 0 1 = some (Va, Sa) ∧
      (∀ i j : ℕ, Se.entry i j =
        1 * crr_u 1 (crr_dt 1 1) ^ ((j:ℤ) - (i:ℤ)) *
          crr_d 1 (crr_dt 1 1) ^ i) ∧
      (∀ j : ℕ, j < 1 → ∀ i : ℕ, i ≤ j →
        Ve.entry i j =
          (crr_q 0 0 1 (crr_dt 1 1) * Ve.entry i (j + 1) +
            (1 - crr_q 0 0 1 (crr_dt 1 1)) * Ve.entry (i + 1) (j + 1)) *
            crr_df 0 (crr_dt 1 1)) := by
  have he := euro_eq_some 1 1 1 0 1 0 Otype.put 1 (by norm_num)
    (by norm_num) (by norm_num)
  have ha := amer_eq_some 1 1 1 0 1 0 Otype.put 1 (by norm_num)
    (by norm_num) (by norm_num)
  have hc := claim9_frame 1 1 1 0 1 0 Otype.put 1 _ _ _ _ (le_refl 1)
    he ha
  exact ⟨_, _, _, _, he, ha, hc.1, hc.2.2.1⟩

/-- C4 amended (restricted to branch probabilities `0 ≤ q ≤ 1`, the
arbitrage-free regime the spec's data model itself singles out): whenever
both pricers return, the American present value `V[0,0]` is at least the
European one. -/
theorem claim4_amer_ge_euro (S0 K T r sigma Q : ℝ) (otype : Otype)
    (M : ℕ) (Ve Se Va Sa : Lattice) (hM : 1 ≤ M)
    (hq0 : 0 ≤ crr_q r Q sigma (crr_dt T M))
    (hq1 : crr_q r Q sigma (crr_dt T M) ≤ 1)
    (he : CRR_european_option_value S0 K T r sigma otype Q M =
      some (Ve, Se))
    (ha : CRR_american_option_value S0 K T r sigma otype Q M =
      some (Va, Sa)) :
    Ve.entry 0 0 ≤ Va.entry 0 0 := by
  obtain ⟨hVe, -⟩ := euro_inv S0 K T r sigma Q otype M Ve Se he
  obtain ⟨hVa, -⟩ := amer_inv S0 K T r sigma Q otype M Va Sa ha
  subst hVe
  subst hVa
  exact euroRun_le_amerRun (crr_q r Q sigma (crr_dt T M))
    (crr_df r (crr_dt T M)) (crr_oreturn otype S0 K r (crr_dt T M))
    hq0 hq1 (le_of_lt (Real.exp_pos (-r * crr_dt T M))) M _ _
    (fun _ _ => le_rfl) 0 0

/-- Witness for C4 at `S0 = K = 1, T = 1, r = Q = 0, sigma = 1, M = 1`,
where `q = (1 - 1/e)/(e - 1/e)` does lie in `[0, 1]`. -/
theorem claim4_witness :
    ∃ Ve Se Va Sa : Lattice,
      CRR_european_option_value 1 1 1 0 1 Otype.call 0 1 = some (Ve, Se) ∧
      CRR_american_option_value 1 1 1 0 1 Otype.call 0 1 = some (Va, Sa) ∧
      0 ≤ crr_q 0 0 1 (crr_dt 1 1) ∧ crr_q 0 0 1 (crr_dt 1 1) ≤ 1 ∧
      Ve.entry 0 0 ≤ Va.entry 0 0 := by
  have he := euro_eq_some 1 1 1 0 1 0 Otype.call 1 (by norm_num)
    (by norm_num) (by norm_num)
  have ha := amer_eq_some 1 1 1 0 1 0 Otype.call 1 (by norm_num)
    (by norm_num) (by norm_num)
  have hdt : crr_dt 1 1 = 1 := by
    rw [crr_dt]
    norm_num
  have hu : crr_u 1 (crr_dt 1 1) = Real.exp 1 := by
    rw [hdt, crr_u, Real.sqrt_one, one_mul]
  have hd : crr_d 1 (crr_dt 1 1) = 1 / Real.exp 1 := by
    rw [crr_d, hu]
  have hq : crr_q 0 0 1 (crr_dt 1 1) =
      (1 - 1 / Real.exp 1) / (Real.exp 1 - 1 / Real.exp 1) := by
    rw [crr_q, hu, hd]
    norm_num
  have hepos : (0:ℝ) < Real.exp 1 := Real.exp_pos 1
  have he1 : (1:ℝ) < Real.exp 1 := Real.one_lt_exp_iff.mpr one_pos
  have hinv : 1 / Real.exp 1 < 1 := by
    rw [div_lt_one hepos]
    exact he1
  have hq0 : 0 ≤ crr_q 0 0 1 (crr_dt 1 1) := by
    rw [hq]
    exact div_nonneg (by linarith) (by linarith)
  have hq1 : crr_q 0 0 1 (crr_dt 1 1) ≤ 1 := by
    rw [hq, div_le_one (by linarith)]
    linarith
  exact ⟨_, _, _, _, he, ha, hq0, hq1,
    claim4_amer_ge_euro 1 1 1 0 1 0 Otype.call 1 _ _ _ _ (le_refl 1)
      hq0 hq1 he ha⟩

/-- Arithmetic core of the C4 counterexample: with branch probability
above `1`, lifting the lower continuation leg to a positive exercise value
strictly decreases the discounted root value. -/
theorem cex_root_lt (qv dv e2 e3 : ℝ) (hq' : 1 < qv) (hd' : 0 < dv)
    (he2 : 0 < e2) (he3 : 0 < e3) :
    max ((qv * (qv * e2 * dv) + (1 - qv) * e3) * dv) 0 <
      qv * qv * e2 * (dv * dv) := by
  apply max_lt
  · nlinarith [mul_neg_of_neg_of_pos
      (mul_neg_of_neg_of_pos (by linarith : 1 - qv < 0) he3) hd']
  · exact mul_pos (mul_pos (mul_pos (by linarith) (by linarith)) he2)
      (mul_pos hd' hd')

/-- C4 counterexample: at
`S0 = 1, K = 1, T = 2, r = 3, sigma = 1, Q = -3, M = 2` (a call) the
branch probability is `q = (e^7 - 1)/(e^2 - 1) ≈ 171 > 1`, and the
American present value `V[0,0]` is strictly below the European one
(about `304` versus `466`), so the unrestricted claim is false. -/
theorem claim4_counterexample :
    ∃ Ve Se Va Sa : Lattice,
      CRR_european_option_value 1 1 2 3 1 Otype.call (-3) 2 =
        some (Ve, Se) ∧
      CRR_american_option_value 1 1 2 3 1 Otype.call (-3) 2 =
        some (Va, Sa) ∧
      Va.entry 0 0 < Ve.entry 0 0 := by
  have he := euro_eq_some 1 1 2 3 1 (-3) Otype.call 2 (by norm_num)
    (by norm_num) (by norm_num)
  have ha := amer_eq_some 1 1 2 3 1 (-3) Otype.call 2 (by norm_num)
    (by norm_num) (by norm_num)
  refine ⟨_, _, _, _, he, ha, ?_⟩
  show amerRun (crr_q 3 (-3) 1 (crr_dt 2 2)) (crr_df 3 (crr_dt 2 2))
      (crr_oreturn Otype.call 1 1 3 (crr_dt 2 2)) 2
      (payoff Otype.call 1 (crr_S 1 1 (crr_dt 2 2))) 0 0 <
    euroRun (crr_q 3 (-3) 1 (crr_dt 2 2)) (crr_df 3 (crr_dt 2 2)) 2
      (payoff Otype.call 1 (crr_S 1 1 (crr_dt 2 2))) 0 0
  have hx2 : (2:ℝ) < Real.exp 1 :=
    lt_trans (by norm_num) Real.exp_one_gt_d9
  have hx0 : (0:ℝ) < Real.exp 1 := Real.exp_pos 1
  have hx1 : (1:ℝ) < Real.exp 1 := by linarith
  have hxne : Real.exp 1 ≠ 0 := ne_of_gt hx0
  have hxn : ∀ n : ℕ, Real.exp ((n:ℕ) : ℝ) = Real.exp 1 ^ n := by
    intro n
    rw [show ((n:ℕ):ℝ) = (n:ℝ) * 1 by ring]
    exact Real.exp_nat_mul 1 n
  have hdt : crr_dt 2 2 = 1 := by
    rw [crr_dt]
    norm_num
  have hu : crr_u 1 (crr_dt 2 2) = Real.exp 1 := by
    rw [hdt, crr_u, Real.sqrt_one, one_mul]
  have hd : crr_d 1 (crr_dt 2 2) = 1 / Real.exp 1 := by
    rw [crr_d, hu]
  have h21 : (0:ℝ) < Real.exp 1 ^ 2 - 1 := by
    have := one_lt_pow hx1 (two_ne_zero)
    linarith
  have h3 : (1:ℝ) < Real.exp 1 ^ 3 := one_lt_pow hx1 (by norm_num)
  have h5 : (1:ℝ) < Real.exp 1 ^ 5 := one_lt_pow hx1 (by norm_num)
  have h7 : (1:ℝ) < Real.exp 1 ^ 7 := one_lt_pow hx1 (by norm_num)
  have hexp6 : Real.exp (3 * crr_dt 2 2 - -3 * crr_dt 2 2) =
      Real.exp 1 ^ 6 := by
    rw [hdt, show (3 * (1:ℝ) - -3 * 1) = ((6:ℕ):ℝ) by norm_num, hxn 6]
  have hexp3 : Real.exp (3 * crr_dt 2 2) = Real.exp 1 ^ 3 := by
    rw [hdt, show (3 * (1:ℝ)) = ((3:ℕ):ℝ) by norm_num, hxn 3]
  have hdf : crr_df 3 (crr_dt 2 2) = 1 / Real.exp 1 ^ 3 := by
    rw [hdt, crr_df, show (-3 * (1:ℝ)) = -((3:ℕ):ℝ) by norm_num,
      Real.exp_neg, hxn 3, inv_eq_one_div]
  have hdfpos : (0:ℝ) < crr_df 3 (crr_dt 2 2) := by
    rw [hdf]
    positivity
  have hqval : crr_q 3 (-3) 1 (crr_dt 2 2) =
      (Real.exp 1 ^ 7 - 1) / (Real.exp 1 ^ 2 - 1) := by
    rw [crr_q, hu, hd, hexp6]
    have hden : (0:ℝ) < Real.exp 1 - 1 / Real.exp 1 := by
      have : 1 / Real.exp 1 < 1 := by
        rw [div_lt_one hx0]
        exact hx1
      linarith
    rw [div_eq_div_iff (ne_of_gt hden) (ne_of_gt h21)]
    have hgoal : ∀ x : ℝ, x ≠ 0 →
        (x ^ 6 - 1 / x) * (x ^ 2 - 1) = (x ^ 7 - 1) * (x - 1 / x) := by
      intro x hx
      field_simp
      ring
    exact hgoal (Real.exp 1) hxne
  have hqpos : (0:ℝ) < crr_q 3 (-3) 1 (crr_dt 2 2) := by
    rw [hqval]
    exact div_pos (by linarith) h21
  have hqgt : (1:ℝ) < crr_q 3 (-3) 1 (crr_dt 2 2) := by
    rw [hqval, lt_div_iff h21]
    nlinarith [mul_pos (pow_pos hx0 2)
      (show (0:ℝ) < Real.exp 1 ^ 5 - 1 by linarith)]
  have hq21 : crr_q 3 (-3) 1 (crr_dt 2 2) * (Real.exp 1 ^ 2 - 1) =
      Real.exp 1 ^ 7 - 1 := by
    rw [hqval, div_mul_cancel₀ _ (ne_of_gt h21)]
  -- terminal payoff values read by the induction
  have hS02 : crr_S 1 1 (crr_dt 2 2) 0 2 = Real.exp 1 ^ 2 := by
    rw [crr_S, hu, hd]
    norm_num
    exact Real.exp_one_pow 2
  have hS12 : crr_S 1 1 (crr_dt 2 2) 1 2 = 1 := by
    rw [crr_S, hu, hd]
    norm_num
  have hS22 : crr_S 1 1 (crr_dt 2 2) 2 2 = 1 / Real.exp 1 ^ 2 := by
    rw [crr_S, hu, hd]
    norm_num
  have hV002 : payoff Otype.call 1 (crr_S 1 1 (crr_dt 2 2)) 0 2 =
      Real.exp 1 ^ 2 - 1 := by
    show max (crr_S 1 1 (crr_dt 2 2) 0 2 - 1) 0 = Real.exp 1 ^ 2 - 1
    rw [hS02]
    exact max_eq_left (by nlinarith)
  have hV012 : payoff Otype.call 1 (crr_S 1 1 (crr_dt 2 2)) 1 2 = 0 := by
    show max (crr_S 1 1 (crr_dt 2 2) 1 2 - 1) 0 = 0
    rw [hS12]
    norm_num
  have hV022 : payoff Otype.call 1 (crr_S 1 1 (crr_dt 2 2)) 2 2 = 0 := by
    show max (crr_S 1 1 (crr_dt 2 2) 2 2 - 1) 0 = 0
    rw [hS22]
    have hle : 1 / Real.exp 1 ^ 2 - 1 ≤ 0 := by
      have : 1 / Real.exp 1 ^ 2 ≤ 1 := by
        rw [div_le_one (by positivity)]
        nlinarith
      linarith
    exact max_eq_right hle
  -- advance-exercise values read by the induction
  have hor01 : crr_oreturn Otype.call 1 1 3 (crr_dt 2 2) 0 1 =
      Real.exp 1 ^ 3 - 1 := by
    show crr_mes 1 3 (crr_dt 2 2) 0 1 - 1 = Real.exp 1 ^ 3 - 1
    rw [crr_mes, hexp3]
    ring
  have hor11 : crr_oreturn Otype.call 1 1 3 (crr_dt 2 2) 1 1 =
      Real.exp 1 ^ 3 - 1 := by
    show crr_mes 1 3 (crr_dt 2 2) 1 1 - 1 = Real.exp 1 ^ 3 - 1
    rw [crr_mes, hexp3]
    ring
  have hor00 : crr_oreturn Otype.call 1 1 3 (crr_dt 2 2) 0 0 = 0 := by
    show crr_mes 1 3 (crr_dt 2 2) 0 0 - 1 = 0
    rw [crr_mes, hexp3]
    ring
  -- European final values
  have hE02 := euroRun_high (crr_q 3 (-3) 1 (crr_dt 2 2))
    (crr_df 3 (crr_dt 2 2)) 2
    (payoff Otype.call 1 (crr_S 1 1 (crr_dt 2 2))) 0 2 le_rfl
  have hE12 := euroRun_high (crr_q 3 (-3) 1 (crr_dt 2 2))
    (crr_df 3 (crr_dt 2 2)) 2
    (payoff Otype.call 1 (crr_S 1 1 (crr_dt 2 2))) 1 2 le_rfl
  have hE22 := euroRun_high (crr_q 3 (-3) 1 (crr_dt 2 2))
    (crr_df 3 (crr_dt 2 2)) 2
    (payoff Otype.call 1 (crr_S 1 1 (crr_dt 2 2))) 2 2 le_rfl
  rw [hV002] at hE02
  rw [hV012] at hE12
  rw [hV022] at hE22
  have hE11 : euroRun (crr_q 3 (-3) 1 (crr_dt 2 2))
      (crr_df 3 (crr_dt 2 2)) 2
      (payoff Otype.call 1 (crr_S 1 1 (crr_dt 2 2))) 1 1 = 0 := by
    rw [euroRun_rec (crr_q 3 (-3) 1 (crr_dt 2 2)) (crr_df 3 (crr_dt 2 2))
      2 (payoff Otype.call 1 (crr_S 1 1 (crr_dt 2 2))) 1 1 (by norm_num)
      le_rfl, hE12, hE22]
    ring
  have hE01 : euroRun (crr_q 3 (-3) 1 (crr_dt 2 2))
      (crr_df 3 (crr_dt 2 2)) 2
      (payoff Otype.call 1 (crr_S 1 1 (crr_dt 2 2))) 0 1 =
      crr_q 3 (-3) 1 (crr_dt 2 2) * (Real.exp 1 ^ 2 - 1) *
        crr_df 3 (crr_dt 2 2) := by
    rw [euroRun_rec (crr_q 3 (-3) 1 (crr_dt 2 2)) (crr_df 3 (crr_dt 2 2))
      2 (payoff Otype.call 1 (crr_S 1 1 (crr_dt 2 2))) 0 1 (by norm_num)
      (by norm_num), hE02, hE12]
    ring
  have hE00 : euroRun (crr_q 3 (-3) 1 (crr_dt 2 2))
      (crr_df 3 (crr_dt 2 2)) 2
      (payoff Otype.call 1 (crr_S 1 1 (crr_dt 2 2))) 0 0 =
      crr_q 3 (-3) 1 (crr_dt 2 2) * crr_q 3 (-3) 1 (crr_dt 2 2) *
        (Real.exp 1 ^ 2 - 1) *
        (crr_df 3 (crr_dt 2 2) * crr_df 3 (crr_dt 2 2)) := by
    rw [euroRun_rec (crr_q 3 (-3) 1 (crr_dt 2 2)) (crr_df 3 (crr_dt 2 2))
      2 (payoff Otype.call 1 (crr_S 1 1 (crr_dt 2 2))) 0 0 (by norm_num)
      le_rfl, hE01, hE11]
    ring
  -- American final values
  have hA02 := amerRun_high (crr_q 3 (-3) 1 (crr_dt 2 2))
    (crr_df 3 (crr_dt 2 2)) (crr_oreturn Otype.call 1 1 3 (crr_dt 2 2)) 2
    (payoff Otype.call 1 (crr_S 1 1 (crr_dt 2 2))) 0 2 le_rfl
  have hA12 := amerRun_high (crr_q 3 (-3) 1 (crr_dt 2 2))
    (crr_df 3 (crr_dt 2 2)) (crr_oreturn Otype.call 1 1 3 (crr_dt 2 2)) 2
    (payoff Otype.call 1 (crr_S 1 1 (crr_dt 2 2))) 1 2 le_rfl
  have hA22 := amerRun_high (crr_q 3 (-3) 1 (crr_dt 2 2))
    (crr_df 3 (crr_dt 2 2)) (crr_oreturn Otype.call 1 1 3 (crr_dt 2 2)) 2
    (payoff Otype.call 1 (crr_S 1 1 (crr_dt 2 2))) 2 2 le_rfl
  rw [hV002] at hA02
  rw [hV012] at hA12
  rw [hV022] at hA22
  have hbr1 : Real.exp 1 ^ 3 - 1 ≤
      crr_q 3 (-3) 1 (crr_dt 2 2) * (Real.exp 1 ^ 2 - 1) *
        crr_df 3 (crr_dt 2 2) := by
    rw [hq21, hdf]
    rw [mul_one_div, le_div_iff (by positivity : (0:ℝ) < Real.exp 1 ^ 3)]
    nlinarith [mul_pos (pow_pos hx0 6) (show (0:ℝ) < Real.exp 1 - 1 by
      linarith)]
  have hA11 : amerRun (crr_q 3 (-3) 1 (crr_dt 2 2))
      (crr_df 3 (crr_dt 2 2)) (crr_oreturn Otype.call 1 1 3 (crr_dt 2 2))
      2 (payoff Otype.call 1 (crr_S 1 1 (crr_dt 2 2))) 1 1 =
      Real.exp 1 ^ 3 - 1 := by
    rw [amerRun_rec (crr_q 3 (-3) 1 (crr_dt 2 2)) (crr_df 3 (crr_dt 2 2))
      (crr_oreturn Otype.call 1 1 3 (crr_dt 2 2)) 2
      (payoff Otype.call 1 (crr_S 1 1 (crr_dt 2 2))) 1 1 (by norm_num)
      le_rfl, hA12, hA22, hor11]
    rw [show (crr_q 3 (-3) 1 (crr_dt 2 2) * 0 +
      (1 - crr_q 3 (-3) 1 (crr_dt 2 2)) * 0) * crr_df 3 (crr_dt 2 2) =
      (0:ℝ) from by ring]
    exact max_eq_right (by linarith)
  have hA01 : amerRun (crr_q 3 (-3) 1 (crr_dt 2 2))
      (crr_df 3 (crr_dt 2 2)) (crr_oreturn Otype.call 1 1 3 (crr_dt 2 2))
      2 (payoff Otype.call 1 (crr_S 1 1 (crr_dt 2 2))) 0 1 =
      crr_q 3 (-3) 1 (crr_dt 2 2) * (Real.exp 1 ^ 2 - 1) *
        crr_df 3 (crr_dt 2 2) := by
    rw [amerRun_rec (crr_q 3 (-3) 1 (crr_dt 2 2)) (crr_df 3 (crr_dt 2 2))
      (crr_oreturn Otype.call 1 1 3 (crr_dt 2 2)) 2
      (payoff Otype.call 1 (crr_S 1 1 (crr_dt 2 2))) 0 1 (by norm_num)
      (by norm_num), hA02, hA12, hor01]
    rw [show (crr_q 3 (-3) 1 (crr_dt 2 2) * (Real.exp 1 ^ 2 - 1) +
      (1 - crr_q 3 (-3) 1 (crr_dt 2 2)) * 0) * crr_df 3 (crr_dt 2 2) =
      crr_q 3 (-3) 1 (crr_dt 2 2) * (Real.exp 1 ^ 2 - 1) *
        crr_df 3 (crr_dt 2 2) from by ring]
    exact max_eq_left hbr1
  rw [amerRun_rec (crr_q 3 (-3) 1 (crr_dt 2 2)) (crr_df 3 (crr_dt 2 2))
    (crr_oreturn Otype.call 1 1 3 (crr_dt 2 2)) 2
    (payoff Otype.call 1 (crr_S 1 1 (crr_dt 2 2))) 0 0 (by norm_num)
    le_rfl, hA01, hA11, hor00, hE00]
  exact cex_root_lt _ _ _ _ hqgt hdfpos h21 (sub_pos.mpr h3)

/-- Witness for C10 at the demo input, padding cell `(2, 1)`. -/
theorem claim10_witness :
    ∃ V S : Lattice,
      CRR_european_option_value 100 100 1 (5/100) (2/10) Otype.put
        (2/100) 4 = some (V, S) ∧
      V.get 2 1 = some (max (100 - S.entry 2 1) 0) := by
  have he := euro_eq_some 100 100 1 (5/100) (2/10) (2/100) Otype.put 4
    (by norm_num) (by norm_num) (by norm_num)
  have hc := claim10_padding_intrinsic 100 100 1 (5/100) (2/10) (2/100)
    Otype.put 4 _ _ (by norm_num) he 2 1 (by norm_num) (by norm_num)
  exact ⟨_, _, he, hc⟩

end CRR
